import Mathlib

/-!
Shallow embedding of the retrieval-augmented context engine of
understand.me: the corpus loader, the two-tier similarity search and the
supporting arithmetic, covering both the persistent (Supabase) variant in
src/services/ai/rag.ts and the in-memory (Voyage) variant.

Numeric conventions: JS numbers are modelled by exact rationals.  Every
cosine-similarity value produced by the code has the shape
num / sqrt den2 with num and den2 rational (den2 is the product of the
two squared magnitudes), so similarity scores are represented exactly by
the pair (num, den2).  Score.val interprets the pair as the real number
it denotes, and Score.le decides the real-number order on pairs.  NaN,
which JS division can produce in the unguarded in-memory variant, is
modelled by Option.none where it can arise.
-/

/-- Exact representation of one JS similarity value: the real number
`num / Real.sqrt den2`.  The field den2 is the product of the two squared
magnitudes and is positive for every value the code constructs; a plain
rational q is represented as (q, 1). -/
structure Score where
  num : ℚ
  den2 : ℚ
  den2_pos : 0 < den2

/-- A plain rational number viewed as a similarity score. -/
def Score.ofRat (q : ℚ) : Score := ⟨q, 1, one_pos⟩

/-- Decides whether the value represented by s is at most the value
represented by t, by sign analysis and cross multiplication of squares. -/
def Score.le (s t : Score) : Bool :=
  if s.num ≤ 0 then
    if 0 ≤ t.num then true
    else decide (t.num ^ 2 * s.den2 ≤ s.num ^ 2 * t.den2)
  else
    if t.num ≤ 0 then false
    else decide (s.num ^ 2 * t.den2 ≤ t.num ^ 2 * s.den2)

/-- The real number a Score stands for. -/
noncomputable def Score.val (s : Score) : ℝ := (s.num : ℝ) / Real.sqrt (s.den2 : ℝ)

theorem Score.val_ofRat (q : ℚ) : (Score.ofRat q).val = (q : ℝ) := by
  simp [Score.val, Score.ofRat, Real.sqrt_one]

theorem sq_le_sq_iff_of_nonpos {u v : ℝ} (hu : u ≤ 0) (hv : v ≤ 0) :
    v ^ 2 ≤ u ^ 2 ↔ u ≤ v := by
  have h1 : (0:ℝ) ≤ -v := by linarith
  have h2 : (0:ℝ) ≤ -u := by linarith
  have h3 : (-v) ^ 2 ≤ (-u) ^ 2 ↔ -v ≤ -u := by
    exact pow_le_pow_iff_left₀ h1 h2 (by norm_num)
  constructor
  · intro h
    have : (-v) ^ 2 ≤ (-u) ^ 2 := by ring_nf; ring_nf at h; linarith
    linarith [h3.mp this]
  · intro h
    have : -v ≤ -u := by linarith
    have := h3.mpr this
    ring_nf at this ⊢; linarith

theorem sq_le_sq_iff_of_nonneg {u v : ℝ} (hu : 0 ≤ u) (hv : 0 ≤ v) :
    u ^ 2 ≤ v ^ 2 ↔ u ≤ v :=
  pow_le_pow_iff_left₀ hu hv (by norm_num)

/-- Score.le decides exactly the order of the represented real values. -/
theorem Score.le_iff_val (s t : Score) : Score.le s t = true ↔ s.val ≤ t.val := by
  have hsd : (0:ℝ) < (s.den2 : ℝ) := by exact_mod_cast s.den2_pos
  have htd : (0:ℝ) < (t.den2 : ℝ) := by exact_mod_cast t.den2_pos
  have hx : (0:ℝ) < Real.sqrt (s.den2 : ℝ) := Real.sqrt_pos.mpr hsd
  have hy : (0:ℝ) < Real.sqrt (t.den2 : ℝ) := Real.sqrt_pos.mpr htd
  have hx2 : Real.sqrt (s.den2 : ℝ) ^ 2 = (s.den2 : ℝ) := Real.sq_sqrt hsd.le
  have hy2 : Real.sqrt (t.den2 : ℝ) ^ 2 = (t.den2 : ℝ) := Real.sq_sqrt htd.le
  have hval : s.val ≤ t.val ↔
      (s.num : ℝ) * Real.sqrt (t.den2 : ℝ) ≤ (t.num : ℝ) * Real.sqrt (s.den2 : ℝ) := by
    unfold Score.val
    exact div_le_div_iff₀ hx hy
  rw [hval]
  unfold Score.le
  by_cases hs : s.num ≤ 0
  · have hsR : (s.num : ℝ) ≤ 0 := by exact_mod_cast hs
    by_cases ht : 0 ≤ t.num
    · have htR : (0:ℝ) ≤ (t.num : ℝ) := by exact_mod_cast ht
      simp only [hs, ht, if_true, if_pos]
      constructor
      · intro _
        calc (s.num : ℝ) * Real.sqrt (t.den2 : ℝ) ≤ 0 :=
              mul_nonpos_of_nonpos_of_nonneg hsR hy.le
          _ ≤ (t.num : ℝ) * Real.sqrt (s.den2 : ℝ) := mul_nonneg htR hx.le
      · intro _; trivial
    · have htR : (t.num : ℝ) ≤ 0 := by
        have : t.num ≤ 0 := le_of_not_le ht
        exact_mod_cast this
      simp only [hs, ht, if_true, if_false, decide_eq_true_eq]
      have hcast : t.num ^ 2 * s.den2 ≤ s.num ^ 2 * t.den2 ↔
          ((t.num : ℝ)) ^ 2 * (s.den2 : ℝ) ≤ ((s.num : ℝ)) ^ 2 * (t.den2 : ℝ) := by
        constructor
        · intro h; exact_mod_cast h
        · intro h; exact_mod_cast h
      rw [hcast]
      have hu : (s.num : ℝ) * Real.sqrt (t.den2 : ℝ) ≤ 0 :=
        mul_nonpos_of_nonpos_of_nonneg hsR hy.le
      have hv : (t.num : ℝ) * Real.sqrt (s.den2 : ℝ) ≤ 0 :=
        mul_nonpos_of_nonpos_of_nonneg htR hx.le
      have := sq_le_sq_iff_of_nonpos hu hv
      rw [← this]
      have e1 : ((t.num : ℝ) * Real.sqrt (s.den2 : ℝ)) ^ 2 = (t.num : ℝ) ^ 2 * (s.den2 : ℝ) := by
        rw [mul_pow, hx2]
      have e2 : ((s.num : ℝ) * Real.sqrt (t.den2 : ℝ)) ^ 2 = (s.num : ℝ) ^ 2 * (t.den2 : ℝ) := by
        rw [mul_pow, hy2]
      rw [e1, e2]
  · have hsR : (0:ℝ) < (s.num : ℝ) := by
      have : 0 < s.num := lt_of_not_le hs
      exact_mod_cast this
    by_cases ht : t.num ≤ 0
    · have htR : (t.num : ℝ) ≤ 0 := by exact_mod_cast ht
      simp only [hs, ht, if_false, if_true]
      constructor
      · intro h; exact absurd h (by simp)
      · intro h
        exfalso
        have h1 : (t.num : ℝ) * Real.sqrt (s.den2 : ℝ) ≤ 0 :=
          mul_nonpos_of_nonpos_of_nonneg htR hx.le
        have h2 : (0:ℝ) < (s.num : ℝ) * Real.sqrt (t.den2 : ℝ) := mul_pos hsR hy
        linarith
    · have htR : (0:ℝ) < (t.num : ℝ) := by
        have : 0 < t.num := lt_of_not_le ht
        exact_mod_cast this
      simp only [hs, ht, if_false, decide_eq_true_eq]
      have hcast : s.num ^ 2 * t.den2 ≤ t.num ^ 2 * s.den2 ↔
          ((s.num : ℝ)) ^ 2 * (t.den2 : ℝ) ≤ ((t.num : ℝ)) ^ 2 * (s.den2 : ℝ) := by
        constructor
        · intro h; exact_mod_cast h
        · intro h; exact_mod_cast h
      rw [hcast]
      have hu : (0:ℝ) ≤ (s.num : ℝ) * Real.sqrt (t.den2 : ℝ) := (mul_pos hsR hy).le
      have hv : (0:ℝ) ≤ (t.num : ℝ) * Real.sqrt (s.den2 : ℝ) := (mul_pos htR hx).le
      have := sq_le_sq_iff_of_nonneg hu hv
      rw [← this]
      have e1 : ((s.num : ℝ) * Real.sqrt (t.den2 : ℝ)) ^ 2 = (s.num : ℝ) ^ 2 * (t.den2 : ℝ) := by
        rw [mul_pow, hy2]
      have e2 : ((t.num : ℝ) * Real.sqrt (s.den2 : ℝ)) ^ 2 = (t.num : ℝ) ^ 2 * (s.den2 : ℝ) := by
        rw [mul_pow, hx2]
      rw [e1, e2]

theorem Score.le_totalB (s t : Score) : Score.le s t || Score.le t s := by
  rcases le_total s.val t.val with h | h
  · have := (Score.le_iff_val s t).mpr h
    simp [this]
  · have := (Score.le_iff_val t s).mpr h
    simp [this]

theorem Score.le_transB {s t u : Score} (h1 : Score.le s t) (h2 : Score.le t u) :
    Score.le s u := by
  rw [Score.le_iff_val] at h1 h2 ⊢
  exact le_trans h1 h2

/-! ## Data model shared by both variants -/

/-- One value of the opaque JSON metadata map attached to a record. -/
inductive MetaVal where
  | nat : ℕ → MetaVal
  | str : String → MetaVal
deriving DecidableEq

/-- The opaque key-value metadata map of a record. -/
def Metadata := List (String × MetaVal)

instance : DecidableEq Metadata := fun a b => List.hasDecEq a b

/-- JS `s.split(' ').length`, the token count stored in record metadata
(rag.ts lines 36 and 293).  JS split on a single space keeps empty
fragments, exactly as String.splitOn does. -/
def tokenCount (s : String) : ℕ := (s.splitOn " ").length

/-- Metadata written by loadCorpus (rag.ts lines 35-38). -/
def insertMetadata (chunk : String) : Metadata :=
  [("token_count", MetaVal.nat (tokenCount chunk)), ("created_by", MetaVal.str "rag_service")]

/-- Metadata written by updateEmbedding (rag.ts lines 292-295). -/
def updateMetadata (content : String) : Metadata :=
  [("token_count", MetaVal.nat (tokenCount content)), ("updated_by", MetaVal.str "rag_service")]

/-- An embedding vector: a finite sequence of JS numbers. -/
def Vec := List ℚ

instance : DecidableEq Vec := fun a b => List.hasDecEq a b

/-- Sum of squares of a vector, by left fold from 0 exactly as the two
`reduce((sum, val) => sum + val * val, 0)` expressions compute the squared
magnitudes (rag.ts lines 184-185, part_001 lines 39-40).  The JS code takes
the square root of this before comparing with 0; since sqrt x = 0 exactly
when x = 0, guards on the magnitude are modelled as guards on sumSq. -/
def sumSq (v : Vec) : ℚ := v.foldl (fun s x => s + x * x) 0

/-- Dot product `a.reduce((sum, val, i) => sum + val * b[i], 0)` (rag.ts
line 183).  The zip truncates at the shorter length; rag.ts only reaches
this after the equal-length guard, and the in-memory variant reaches it
with a.length ≤ b.length (the longer-a case throws instead). -/
def dotProduct (a b : Vec) : ℚ := (a.zip b).foldl (fun s p => s + p.1 * p.2) 0

theorem foldl_sq_le (c : ℚ) (v : List ℚ) : c ≤ v.foldl (fun s x => s + x * x) c := by
  induction v generalizing c with
  | nil => exact le_refl c
  | cons x xs ih =>
    have h1 : c ≤ c + x * x := by nlinarith [sq_nonneg x]
    exact le_trans h1 (ih (c + x * x))

theorem sumSq_nonneg (v : Vec) : 0 ≤ sumSq v := foldl_sq_le 0 v

/-- cosineSimilarity of src/services/ai/rag.ts lines 177-192: a length
mismatch returns 0, either squared magnitude equal to 0 returns 0, and
otherwise the value is dot / (sqrt (sumSq a) * sqrt (sumSq b)), which the
Score pair (dot, sumSq a * sumSq b) represents exactly. -/
def cosineSimilarity (a b : Vec) : Score :=
  if List.length a ≠ List.length b then Score.ofRat 0
  else if h : sumSq a = 0 ∨ sumSq b = 0 then Score.ofRat 0
  else
    ⟨dotProduct a b, sumSq a * sumSq b, by
      push_neg at h
      have ha := sumSq_nonneg a
      have hb := sumSq_nonneg b
      exact mul_pos (lt_of_le_of_ne ha (Ne.symm h.1)) (lt_of_le_of_ne hb (Ne.symm h.2))⟩

/-- cosineSimilarity of the in-memory variant (src/unnamed/part_001 lines
36-41), which has no guards.  In JS it evaluates to NaN when the first
vector is longer (b[i] is undefined inside the reduce) and when either
magnitude is 0 (the numerator is then provably 0, so the division is 0/0);
none models NaN.  When the first vector is strictly shorter the reduce
silently truncates the dot product to the first a.length coordinates. -/
def cosineSimilarityMem (a b : Vec) : Option Score :=
  if List.length b < List.length a then none
  else if h : sumSq a = 0 ∨ sumSq b = 0 then none
  else
    some ⟨dotProduct a b, sumSq a * sumSq b, by
      push_neg at h
      have ha := sumSq_nonneg a
      have hb := sumSq_nonneg b
      exact mul_pos (lt_of_le_of_ne ha (Ne.symm h.1)) (lt_of_le_of_ne hb (Ne.symm h.2))⟩

/-! ## Persistent variant: store rows and the two-tier search -/

/-- A row of the document_embeddings table as selected by the search and
fallback paths (content, embedding, metadata, source). -/
structure StoreRow where
  content : String
  embedding : Vec
  metadata : Metadata
  source : String
deriving DecidableEq

/-- One result entry of findSimilar: chunk text, similarity score and
metadata. -/
structure SimEntry where
  chunk : String
  score : Score
  metadata : Metadata

/-- The entry the fallback path builds for one fetched row (rag.ts lines
157-161). -/
def simEntry (q : Vec) (d : StoreRow) : SimEntry :=
  ⟨d.content, cosineSimilarity q d.embedding, d.metadata⟩

/-- The JS sort comparator `(a, b) => b.score - a.score` asks for scores
in descending order; this Boolean relation holds when a may come before b
under that comparator. -/
def scoreDescLe (a b : SimEntry) : Bool := Score.le b.score a.score

/-- JS Array.prototype.sort is required to be stable, so the descending
sort of the score entries is modelled by a stable merge sort under
scoreDescLe. -/
def rankDesc (l : List SimEntry) : List SimEntry := l.mergeSort scoreDescLe

/-- Server-side source filter: the fallback path adds `.eq('source', s)`
to the select when a source is given (rag.ts lines 145-147). -/
def fetchRows (store : List StoreRow) (source : Option String) : List StoreRow :=
  match source with
  | none => store
  | some s => store.filter (fun r => r.source == s)

/-- fallbackSimilaritySearch of rag.ts lines 134-172: on a fetch error
return the empty list (the catch and the error branch both yield []),
otherwise score every fetched row, sort by score descending and take the
first topK.  No similarity floor is applied. -/
def fallbackSimilaritySearch (q : Vec) (topK : ℕ) (source : Option String)
    (store : List StoreRow) (fetchErr : Bool) : List SimEntry :=
  if fetchErr then []
  else (rankDesc ((fetchRows store source).map (simEntry q))).take topK

/-- Modelled from the spec: the match_documents RPC backing the indexed
path lives in the database, not under src/; per the spec it returns at
most match_count results and applies "a minimum similarity floor of 0.1
(results below this floor are excluded even if fewer than topK
remain)". -/
def matchDocuments (q : Vec) (threshold : ℚ) (matchCount : ℕ)
    (cands : List StoreRow) : List SimEntry :=
  (rankDesc (((cands.map (simEntry q)).filter
    (fun e => Score.le (Score.ofRat threshold) e.score)))).take matchCount

/-- A row returned by the indexed (pgvector) path: content, distance and
metadata (rag.ts lines 119-123 read these fields). -/
structure IdxRow where
  content : String
  distance : ℚ
  metadata : Metadata

/-- The body of findSimilar (rag.ts lines 83-124) before the outer catch:
embed the query (a provider error propagates out of this body), then
consult the indexed path; an indexed error falls back to the brute-force
search, absent or empty data yields [], and data rows are mapped to
entries with score 1 - distance. -/
def findSimilarBody (embedQ : Option Vec) (topK : ℕ) (source : Option String)
    (idxOutcome : Except String (Option (List IdxRow)))
    (store : List StoreRow) (fetchErr : Bool) : Except String (List SimEntry) :=
  match embedQ with
  | none => Except.error "Failed to generate query embedding"
  | some q =>
    match idxOutcome with
    | Except.error _ => Except.ok (fallbackSimilaritySearch q topK source store fetchErr)
    | Except.ok none => Except.ok []
    | Except.ok (some data) =>
      if data.isEmpty then Except.ok []
      else Except.ok (data.map (fun r => ⟨r.content, Score.ofRat (1 - r.distance), r.metadata⟩))

/-- findSimilar of rag.ts lines 78-129: the outer try/catch turns any
error escaping the body into the empty result list. -/
def findSimilar (embedQ : Option Vec) (topK : ℕ) (source : Option String)
    (idxOutcome : Except String (Option (List IdxRow)))
    (store : List StoreRow) (fetchErr : Bool) : List SimEntry :=
  match findSimilarBody embedQ topK source idxOutcome store fetchErr with
  | Except.ok l => l
  | Except.error _ => []

/-! ## Persistent variant: corpus loading and mutation -/

/-- The row shape inserted into document_embeddings
(types/database DocumentEmbeddingInsert, built at rag.ts lines 30-39). -/
structure DocumentEmbeddingInsert where
  content : String
  embedding : Vec
  source : String
  chunk_index : ℕ
  metadata : Metadata
deriving DecidableEq

/-- The flattened chunk sequence `texts.flatMap((t) => splitOnToken(t, 500))`
(rag.ts line 21).  The chunker itself lives in src/utils/chunker.ts, which
is not part of the sources here, so the split function is a parameter. -/
def corpusChunks (texts : List String) (split : String → List String) : List String :=
  texts.flatMap split

/-- The per-chunk embedding fan-out of rag.ts lines 25-45: each chunk is
embedded independently (embedAt gives the provider outcome for the chunk
at a given position), a success becomes an insert row carrying the chunk
position as chunk_index, and a failure becomes null (here none). -/
def embeddingResults (texts : List String) (source : Option String)
    (split : String → List String) (embedAt : ℕ → Option Vec) :
    List (Option DocumentEmbeddingInsert) :=
  (corpusChunks texts split).enum.map (fun p =>
    (embedAt p.1).map (fun emb =>
      { content := p.2
        embedding := emb
        source := source.getD "unknown"
        chunk_index := p.1
        metadata := insertMetadata p.2 }))

/-- The surviving rows `embeddingResults.filter(result => result !== null)`
(rag.ts line 48). -/
def validEmbeddings (texts : List String) (source : Option String)
    (split : String → List String) (embedAt : ℕ → Option Vec) :
    List DocumentEmbeddingInsert :=
  (embeddingResults texts source split embedAt).reduceOption

/-- loadCorpus of rag.ts lines 20-68.  insertErr is the store outcome for
the attempted batch insert (none means the insert succeeded).  The ok
payload is the list of rows actually inserted; every error is rethrown by
the outer catch, so errors surface to the caller unchanged. -/
def loadCorpus (texts : List String) (source : Option String)
    (split : String → List String) (embedAt : ℕ → Option Vec)
    (insertErr : List DocumentEmbeddingInsert → Option String) :
    Except String (List DocumentEmbeddingInsert) :=
  let valid := validEmbeddings texts source split embedAt
  if valid.length = 0 then Except.error "No valid embeddings generated"
  else
    match insertErr valid with
    | some msg => Except.error ("Failed to store embeddings in database: " ++ msg)
    | none => Except.ok valid

/-- The full stored record shape of the document_embeddings table
(content, embedding, source, chunk_index, metadata, timestamps, id). -/
structure StoredRecord where
  id : String
  content : String
  embedding : Vec
  source : String
  chunk_index : ℕ
  metadata : Metadata
  created_at : String
  updated_at : String
deriving DecidableEq

/-- updateEmbedding of rag.ts lines 278-316: re-embed the new content
(a provider failure is rethrown), then update every row whose id matches,
setting content, embedding, updated_at and metadata, and source only when
a new source is supplied; a store error is rethrown.  now stands for
`new Date().toISOString()`. -/
def updateEmbedding (store : List StoredRecord) (rid : String) (content : String)
    (newSource : Option String) (embedOutcome : Option Vec) (now : String)
    (updateErr : Option String) : Except String (List StoredRecord) :=
  match embedOutcome with
  | none => Except.error "Failed to generate embedding"
  | some emb =>
    match updateErr with
    | some msg => Except.error ("Failed to update embedding: " ++ msg)
    | none =>
      Except.ok (store.map (fun r =>
        if r.id = rid then
          { r with
            content := content
            embedding := emb
            updated_at := now
            metadata := updateMetadata content
            source := newSource.getD r.source }
        else r))

/-- The statistics record returned by getCorpusStats. -/
structure CorpusStats where
  total_chunks : ℕ
  sources : List String
  avg_chunk_length : ℤ
deriving DecidableEq

/-- JS `[...new Set(xs)]`: deduplication keeping the first occurrence of
each element in insertion order. -/
def jsSetDedup : List String → List String
  | [] => []
  | x :: xs => x :: jsSetDedup (xs.filter (fun y => y ≠ x))
termination_by l => l.length
decreasing_by
  simp only [List.length_cons]
  exact Nat.lt_succ_of_le (List.length_filter_le _ _)

/-- A row of the select that getCorpusStats issues (content, source). -/
structure StatRow where
  content : String
  source : String

/-- getCorpusStats of rag.ts lines 226-270 as a function of the fetch
outcome: a store error is thrown and caught, returning the zero record;
null or empty data also returns the zero record; otherwise the row count,
the first-occurrence-ordered set of sources, and the rounded mean content
length (JS Math.round is round half toward positive infinity, as is
Mathlib round on the rationals). -/
def getCorpusStats (fetch : Except String (Option (List StatRow))) : CorpusStats :=
  match fetch with
  | Except.error _ => { total_chunks := 0, sources := [], avg_chunk_length := 0 }
  | Except.ok none => { total_chunks := 0, sources := [], avg_chunk_length := 0 }
  | Except.ok (some data) =>
    if data.isEmpty then { total_chunks := 0, sources := [], avg_chunk_length := 0 }
    else
      { total_chunks := data.length
        sources := jsSetDedup (data.map (fun r => r.source))
        avg_chunk_length :=
          round (((data.map (fun r => (r.content.length : ℚ))).sum) / (data.length : ℚ)) }

/-! ## In-memory (Voyage) variant of src/unnamed/part_001 -/

/-- The two module-level collections of the in-memory variant
(part_001 lines 4-5). -/
structure MemState where
  chunks : List String
  embeddings : List Vec
deriving DecidableEq

/-- loadCorpus of part_001 lines 18-31: reassign the chunk collection to
the flattened split of the new texts, then embed all chunks in a single
batch call; on success the embedding collection is replaced by the batch
result, on a provider error it is set to [] while the chunks remain. -/
def loadCorpusMem (texts : List String) (split : String → List String)
    (batchOutcome : List String → Option (List Vec)) (_st : MemState) : MemState :=
  let cs := texts.flatMap split
  match batchOutcome cs with
  | some embs => { chunks := cs, embeddings := embs }
  | none => { chunks := cs, embeddings := [] }

/-- One result entry of the in-memory findSimilar; the score is an Option
because the unguarded cosine can evaluate to NaN. -/
structure MemEntry where
  chunk : String
  score : Option Score

/-- The JS comparator `(a, b) => b.score - a.score` under sort semantics:
a NaN comparator value is treated as 0, so entries with NaN score compare
as equal to everything. -/
def memDescLe (a b : MemEntry) : Bool :=
  match a.score, b.score with
  | none, _ => true
  | _, none => true
  | some s, some t => Score.le t s

/-- findSimilar of part_001 lines 50-66: embed the query (a provider error
is caught, returning []), score every stored chunk against its positional
embedding, sort descending and take topK.  When the embedding collection
is shorter than the chunk collection (the state a failed load leaves
behind), embeddings[i] is undefined for some i and the cosine reduce
throws, which the catch turns into []. -/
def findSimilarMem (embedQ : Option Vec) (topK : ℕ) (st : MemState) : List MemEntry :=
  match embedQ with
  | none => []
  | some q =>
    if st.embeddings.length < st.chunks.length then []
    else
      ((st.chunks.enum.map (fun p =>
        (⟨p.2, cosineSimilarityMem q (st.embeddings.getD p.1 [])⟩ : MemEntry))).mergeSort
          memDescLe).take topK

/-! ## Supporting lemmas -/

theorem scoreDescLe_trans (a b c : SimEntry) (hab : scoreDescLe a b) (hbc : scoreDescLe b c) :
    scoreDescLe a c := by
  unfold scoreDescLe at hab hbc ⊢
  exact Score.le_transB hbc hab

theorem scoreDescLe_total (a b : SimEntry) : scoreDescLe a b || scoreDescLe b a := by
  unfold scoreDescLe
  rcases Bool.or_eq_true_iff.mp (Score.le_totalB b.score a.score) with h | h
  · simp [h]
  · simp [h]

theorem validEmbeddings_mem_fwd (texts : List String) (source : Option String)
    (split : String → List String) (embedAt : ℕ → Option Vec)
    (r : DocumentEmbeddingInsert) (hr : r ∈ validEmbeddings texts source split embedAt) :
    embedAt r.chunk_index = some r.embedding
    ∧ (corpusChunks texts split)[r.chunk_index]? = some r.content := by
  unfold validEmbeddings at hr
  rw [List.reduceOption_mem_iff] at hr
  unfold embeddingResults at hr
  rw [List.mem_map] at hr
  obtain ⟨p, hp, hpr⟩ := hr
  rw [Option.map_eq_some'] at hpr
  obtain ⟨emb, hemb, hrec⟩ := hpr
  have hidx : r.chunk_index = p.1 := by rw [← hrec]
  have hcontent : r.content = p.2 := by rw [← hrec]
  have hembv : r.embedding = emb := by rw [← hrec]
  rw [List.mem_enum_iff_getElem?] at hp
  refine ⟨?_, ?_⟩
  · rw [hidx, hemb, hembv]
  · rw [hidx, hcontent]; exact hp

theorem validEmbeddings_mem_bwd (texts : List String) (source : Option String)
    (split : String → List String) (embedAt : ℕ → Option Vec)
    (i : ℕ) (emb : Vec) (c : String)
    (hemb : embedAt i = some emb) (hc : (corpusChunks texts split)[i]? = some c) :
    ({ content := c, embedding := emb, source := source.getD "unknown",
       chunk_index := i, metadata := insertMetadata c } : DocumentEmbeddingInsert)
      ∈ validEmbeddings texts source split embedAt := by
  unfold validEmbeddings
  rw [List.reduceOption_mem_iff]
  unfold embeddingResults
  rw [List.mem_map]
  refine ⟨(i, c), ?_, ?_⟩
  · rw [List.mem_enum_iff_getElem?]; exact hc
  · simp only [hemb, Option.map_some']

theorem loadCorpus_ok_stored (texts : List String) (source : Option String)
    (split : String → List String) (embedAt : ℕ → Option Vec)
    (insertErr : List DocumentEmbeddingInsert → Option String)
    (stored : List DocumentEmbeddingInsert)
    (hok : loadCorpus texts source split embedAt insertErr = Except.ok stored) :
    stored = validEmbeddings texts source split embedAt := by
  unfold loadCorpus at hok
  by_cases h0 : (validEmbeddings texts source split embedAt).length = 0
  · rw [if_pos h0] at hok; exact absurd hok (by simp)
  · rw [if_neg h0] at hok
    cases him : insertErr (validEmbeddings texts source split embedAt) with
    | some msg => rw [him] at hok; exact absurd hok (by simp)
    | none => rw [him] at hok; exact (Except.ok.injEq _ _).mp hok.symm

/-! ## Claim theorems -/

/-- C10: getCorpusStats never throws; a store read failure yields the same
zeroed statistics record (0 chunks, no sources, 0 average length) that an
absent or empty result set yields, so a store error is indistinguishable
from an empty corpus at the public interface.  The model is total by
construction, mirroring the catch-all in rag.ts lines 262-269. -/
theorem getCorpusStats_error_is_zeroed : ∀ e : String,
    getCorpusStats (Except.error e)
        = { total_chunks := 0, sources := [], avg_chunk_length := 0 }
    ∧ getCorpusStats (Except.ok none)
        = { total_chunks := 0, sources := [], avg_chunk_length := 0 }
    ∧ getCorpusStats (Except.ok (some []))
        = { total_chunks := 0, sources := [], avg_chunk_length := 0 }
    ∧ getCorpusStats (Except.error e) = getCorpusStats (Except.ok (some [])) := by
  intro e
  exact ⟨rfl, rfl, rfl, rfl⟩

/-- C9: for the in-memory backend, loadCorpus replaces the corpus
wholesale: the resulting module-level state does not depend on the prior
state, its chunk collection is exactly the flattened split of the new
texts, and a subsequent findSimilar on the resulting state is therefore
independent of whatever was loaded before. -/
theorem loadCorpusMem_replaces_corpus :
    ∀ (texts : List String) (split : String → List String)
      (batchOutcome : List String → Option (List Vec)) (st st2 : MemState),
    (loadCorpusMem texts split batchOutcome st).chunks = texts.flatMap split
    ∧ loadCorpusMem texts split batchOutcome st = loadCorpusMem texts split batchOutcome st2
    ∧ (∀ (embedQ : Option Vec) (topK : ℕ),
        findSimilarMem embedQ topK (loadCorpusMem texts split batchOutcome st)
          = findSimilarMem embedQ topK (loadCorpusMem texts split batchOutcome st2)) := by
  intro texts split batchOutcome st st2
  have hstate : loadCorpusMem texts split batchOutcome st
      = loadCorpusMem texts split batchOutcome st2 := by
    cases h : batchOutcome (texts.flatMap split) <;> simp [loadCorpusMem, h]
  refine ⟨?_, hstate, ?_⟩
  · cases h : batchOutcome (texts.flatMap split) <;> simp [loadCorpusMem, h]
  · intro embedQ topK
    rw [hstate]

/-- C4 counterexample: the in-memory variant's cosineSimilarity (part_001
lines 36-41) has no zero-magnitude guard, so on the all-zero vectors [0]
and [0] it evaluates 0 / (0 * 0), which is NaN in JS (modelled as none),
not 0.  This refutes the claim that cosineSimilarity returns 0 for
zero-magnitude input; the guarded rag.ts variant does return 0. -/
theorem cosineSimilarityMem_zero_vector_is_nan :
    cosineSimilarityMem [(0:ℚ)] [(0:ℚ)] = none := by
  unfold cosineSimilarityMem
  norm_num [sumSq]

/-- C4 amended: the persistent-variant cosineSimilarity (rag.ts lines
177-192) returns 0 whenever the vectors differ in length or either
squared magnitude is 0 (in particular for all-zero vectors), while the
unguarded in-memory variant yields NaN (none) in the zero-magnitude case
whenever its dot-product reduce does not itself throw. -/
theorem cosineSimilarity_degenerate_returns_zero :
    ∀ a b : Vec,
      (List.length a ≠ List.length b ∨ sumSq a = 0 ∨ sumSq b = 0 →
        cosineSimilarity a b = Score.ofRat 0)
      ∧ (List.length a ≤ List.length b → sumSq a = 0 ∨ sumSq b = 0 →
        cosineSimilarityMem a b = none) := by
  intro a b
  constructor
  · intro h
    unfold cosineSimilarity
    by_cases hl : List.length a ≠ List.length b
    · rw [if_pos hl]
    · have hz : sumSq a = 0 ∨ sumSq b = 0 := by tauto
      rw [if_neg hl, dif_pos hz]
  · intro hle hz
    unfold cosineSimilarityMem
    rw [if_neg (by omega : ¬ List.length b < List.length a), dif_pos hz]

/-- C4 witness: the amended theorem applied to the concrete length-mismatch
pair ([0], [0, 1]). -/
theorem cosineSimilarity_degenerate_witness :
    cosineSimilarity [(0:ℚ)] [(0:ℚ), 1] = Score.ofRat 0 :=
  (cosineSimilarity_degenerate_returns_zero [(0:ℚ)] [(0:ℚ), 1]).1 (Or.inl (by decide))

/-- C5 counterexample: a loadCorpus call in which every chunk survives
embedding (one chunk, embedded successfully) still fails terminally when
the store insert errors (rag.ts lines 59-61), refuting the claim that
loadCorpus succeeds whenever at least one chunk's embedding succeeds. -/
theorem loadCorpus_insert_failure_cex :
    loadCorpus ["a"] none (fun t => [t]) (fun _ => some [(1:ℚ)]) (fun _ => some "boom")
      = Except.error "Failed to store embeddings in database: boom"
    ∧ (validEmbeddings ["a"] none (fun t => [t]) (fun _ => some [(1:ℚ)])).length = 1 := by
  constructor
  · rfl
  · rfl

/-- C5 amended: loadCorpus succeeds exactly when at least one chunk
survives embedding and the batch insert succeeds; it fails terminally both
when zero chunks survive and when the insert errors, and on success the
stored rows are exactly the surviving chunks. -/
theorem loadCorpus_success_iff :
    ∀ (texts : List String) (source : Option String) (split : String → List String)
      (embedAt : ℕ → Option Vec)
      (insertErr : List DocumentEmbeddingInsert → Option String),
      ((∃ stored, loadCorpus texts source split embedAt insertErr = Except.ok stored)
        ↔ (validEmbeddings texts source split embedAt ≠ []
            ∧ insertErr (validEmbeddings texts source split embedAt) = none))
      ∧ (∀ stored, loadCorpus texts source split embedAt insertErr = Except.ok stored →
          stored = validEmbeddings texts source split embedAt) := by
  intro texts source split embedAt insertErr
  constructor
  · constructor
    · rintro ⟨stored, hok⟩
      unfold loadCorpus at hok
      by_cases h0 : (validEmbeddings texts source split embedAt).length = 0
      · rw [if_pos h0] at hok; exact absurd hok (by simp)
      · rw [if_neg h0] at hok
        refine ⟨fun hnil => h0 (by rw [hnil]; rfl), ?_⟩
        cases him : insertErr (validEmbeddings texts source split embedAt) with
        | some msg => rw [him] at hok; exact absurd hok (by simp)
        | none => rfl
    · rintro ⟨hne, hins⟩
      refine ⟨validEmbeddings texts source split embedAt, ?_⟩
      unfold loadCorpus
      rw [if_neg (fun h0 => hne (List.length_eq_zero.mp h0)), hins]
  · intro stored hok
    exact loadCorpus_ok_stored texts source split embedAt insertErr stored hok

/-- C5 witness: the amended theorem applied at a concrete call with one
surviving chunk and a successful insert, yielding a successful load. -/
theorem loadCorpus_success_iff_witness :
    ∃ stored, loadCorpus ["a"] none (fun t => [t]) (fun _ => some [(1:ℚ)]) (fun _ => none)
      = Except.ok stored :=
  (loadCorpus_success_iff ["a"] none (fun t => [t]) (fun _ => some [(1:ℚ)])
    (fun _ => none)).1.mpr ⟨by decide, rfl⟩

/-- C1 (persistent variant): when a loadCorpus call succeeds, a record
with a given chunk position is present among the stored rows exactly when
embedding generation succeeded for the chunk at that position; each
position's outcome depends only on its own embedding result, so per-item
failures drop only their own chunk and never abort the others. -/
theorem loadCorpus_record_iff_embed :
    ∀ (texts : List String) (source : Option String) (split : String → List String)
      (embedAt : ℕ → Option Vec)
      (insertErr : List DocumentEmbeddingInsert → Option String)
      (stored : List DocumentEmbeddingInsert),
      loadCorpus texts source split embedAt insertErr = Except.ok stored →
      ∀ i : ℕ, i < (corpusChunks texts split).length →
        ((∃ r ∈ stored, r.chunk_index = i) ↔ (embedAt i).isSome = true) := by
  intro texts source split embedAt insertErr stored hok i hi
  have hst := loadCorpus_ok_stored texts source split embedAt insertErr stored hok
  subst hst
  constructor
  · rintro ⟨r, hr, hidx⟩
    have h := validEmbeddings_mem_fwd texts source split embedAt r hr
    rw [hidx] at h
    rw [h.1]
    rfl
  · intro hsome
    obtain ⟨emb, hemb⟩ := Option.isSome_iff_exists.mp hsome
    have hc : (corpusChunks texts split)[i]? = some ((corpusChunks texts split).get ⟨i, hi⟩) := by
      rw [List.getElem?_eq_getElem hi]
      simp
    exact ⟨_, validEmbeddings_mem_bwd texts source split embedAt i emb _ hemb hc, rfl⟩

/-- C1 witness: the theorem applied to a concrete two-chunk call in which
the provider succeeds on chunk 0 and fails on chunk 1; a stored record
with chunk_index 0 exists. -/
theorem loadCorpus_record_iff_embed_witness :
    ∃ r ∈ validEmbeddings ["a", "b"] none (fun t => [t])
        (fun i => if i = 0 then some [(1:ℚ)] else none), r.chunk_index = 0 :=
  (loadCorpus_record_iff_embed ["a", "b"] none (fun t => [t])
      (fun i => if i = 0 then some [(1:ℚ)] else none) (fun _ => none)
      (validEmbeddings ["a", "b"] none (fun t => [t])
        (fun i => if i = 0 then some [(1:ℚ)] else none)) rfl 0 (by decide)).mpr (by decide)

/-- C7: when a loadCorpus call succeeds, every stored record's chunk_index
is its 0-based position in the flattened post-split chunk sequence across
all input texts: the chunk at that position of the flattened sequence is
exactly the record's content. -/
theorem loadCorpus_chunk_index_is_position :
    ∀ (texts : List String) (source : Option String) (split : String → List String)
      (embedAt : ℕ → Option Vec)
      (insertErr : List DocumentEmbeddingInsert → Option String)
      (stored : List DocumentEmbeddingInsert),
      loadCorpus texts source split embedAt insertErr = Except.ok stored →
      ∀ r ∈ stored, (corpusChunks texts split)[r.chunk_index]? = some r.content := by
  intro texts source split embedAt insertErr stored hok r hr
  have hst := loadCorpus_ok_stored texts source split embedAt insertErr stored hok
  subst hst
  exact (validEmbeddings_mem_fwd texts source split embedAt r hr).2

/-- C7 witness: the theorem applied to a concrete two-chunk call and the
record stored for the first chunk. -/
theorem loadCorpus_chunk_index_witness :
    (corpusChunks ["a", "b"] (fun t => [t]))[(0:ℕ)]? = some "a" :=
  loadCorpus_chunk_index_is_position ["a", "b"] none (fun t => [t])
    (fun i => if i = 0 then some [(2:ℚ)] else none) (fun _ => none)
    (validEmbeddings ["a", "b"] none (fun t => [t])
      (fun i => if i = 0 then some [(2:ℚ)] else none)) rfl
    { content := "a", embedding := [(2:ℚ)], source := "unknown", chunk_index := 0,
      metadata := insertMetadata "a" }
    (List.mem_cons_self _ _)

/-- C2: findSimilar never surfaces an error to its caller: any error
escaping the body is caught and becomes the empty list; an error outcome
of the indexed path makes the result exactly the brute-force fallback
search; failure of the query embedding yields []; and total failure of
the fallback fetch (after an indexed error) also yields []. -/
theorem findSimilar_never_throws :
    ∀ (embedQ : Option Vec) (topK : ℕ) (source : Option String)
      (idxOutcome : Except String (Option (List IdxRow)))
      (store : List StoreRow) (fetchErr : Bool),
      (∀ e, findSimilarBody embedQ topK source idxOutcome store fetchErr = Except.error e →
        findSimilar embedQ topK source idxOutcome store fetchErr = [])
      ∧ (embedQ = none → findSimilar embedQ topK source idxOutcome store fetchErr = [])
      ∧ (∀ q e, embedQ = some q → idxOutcome = Except.error e →
          findSimilar embedQ topK source idxOutcome store fetchErr
            = fallbackSimilaritySearch q topK source store fetchErr)
      ∧ (∀ q e, embedQ = some q → idxOutcome = Except.error e → fetchErr = true →
          findSimilar embedQ topK source idxOutcome store fetchErr = []) := by
  intro embedQ topK source idxOutcome store fetchErr
  refine ⟨?_, ?_, ?_, ?_⟩
  · intro e he
    unfold findSimilar
    rw [he]
  · intro h
    subst h
    rfl
  · intro q e hq he
    subst hq
    subst he
    rfl
  · intro q e hq he hf
    subst hq
    subst he
    subst hf
    rfl

/-- C2 witness: the theorem applied at a concrete call whose indexed path
errors, showing the result is the fallback search result. -/
theorem findSimilar_never_throws_witness :
    findSimilar (some [(1:ℚ)]) 3 none (Except.error "idx down") [] false
      = fallbackSimilaritySearch [(1:ℚ)] 3 none [] false :=
  (findSimilar_never_throws (some [(1:ℚ)]) 3 none (Except.error "idx down") [] false).2.2.1
    [(1:ℚ)] "idx down" rfl rfl

/-- A concrete stored record used by the C8 theorems. -/
def sampleRecord : StoredRecord :=
  { id := "id1", content := "old content", embedding := [(1:ℚ)], source := "s",
    chunk_index := 7,
    metadata := [("token_count", MetaVal.nat 2), ("created_by", MetaVal.str "rag_service")],
    created_at := "T0", updated_at := "T0" }

/-- C8 counterexample: updateEmbedding does not replace only content and
embedding: it also overwrites the record's metadata (with a recomputed
token count and an updated_by tag) and its updated_at timestamp, as rag.ts
lines 288-296 show.  At this concrete input the updated record's metadata
differs from the original metadata, refuting the frame claim as stated
(chunk_index is indeed unchanged). -/
theorem updateEmbedding_metadata_cex :
    updateEmbedding [sampleRecord] "id1" "new content" none (some [(2:ℚ)]) "T1" none
      = Except.ok [{ sampleRecord with
          content := "new content", embedding := [(2:ℚ)], updated_at := "T1",
          metadata := updateMetadata "new content" }]
    ∧ updateMetadata "new content" ≠ sampleRecord.metadata := by
  constructor
  · rfl
  · intro h
    have h2 := List.tail_eq_of_cons_eq h
    have h3 := List.head_eq_of_cons_eq h2
    exact absurd (congrArg Prod.fst h3) (by simp [sampleRecord])

/-- C8 amended: for every matching record, updateEmbedding replaces
content, embedding, metadata (recomputed token count plus an updated_by
tag) and the updated_at timestamp, and replaces source only when a new
source is supplied; it leaves id, chunk_index and created_at unchanged,
and leaves non-matching records entirely untouched. -/
theorem updateEmbedding_frame :
    ∀ (store : List StoredRecord) (rid content : String) (newSource : Option String)
      (emb : Vec) (now : String) (stored : List StoredRecord),
      updateEmbedding store rid content newSource (some emb) now none = Except.ok stored →
      stored.length = store.length
      ∧ (∀ (i : ℕ) (r r2 : StoredRecord), store[i]? = some r → stored[i]? = some r2 →
          ((r.id ≠ rid → r2 = r)
           ∧ (r.id = rid →
               r2.id = r.id ∧ r2.chunk_index = r.chunk_index
               ∧ r2.created_at = r.created_at
               ∧ r2.content = content ∧ r2.embedding = emb
               ∧ r2.source = newSource.getD r.source
               ∧ r2.metadata = updateMetadata content ∧ r2.updated_at = now))) := by
  intro store rid content newSource emb now stored hok
  have hst : stored = store.map (fun r =>
      if r.id = rid then
        { r with
          content := content, embedding := emb, updated_at := now,
          metadata := updateMetadata content, source := newSource.getD r.source }
      else r) := by
    unfold updateEmbedding at hok
    exact (Except.ok.injEq _ _).mp hok.symm
  subst hst
  refine ⟨List.length_map _ _, ?_⟩
  intro i r r2 hr hr2
  rw [List.getElem?_map, hr, Option.map_some'] at hr2
  have hr2v : r2 = if r.id = rid then
      ({ r with
        content := content, embedding := emb, updated_at := now,
        metadata := updateMetadata content, source := newSource.getD r.source }) else r :=
    ((Option.some.injEq _ _).mp hr2).symm
  constructor
  · intro hne
    rw [hr2v, if_neg hne]
  · intro heq
    rw [hr2v, if_pos heq]
    exact ⟨rfl, rfl, rfl, rfl, rfl, rfl, rfl, rfl⟩

/-- C8 witness: the amended theorem applied to a one-record store whose
record matches the updated id; its chunk_index is unchanged. -/
theorem updateEmbedding_frame_witness :
    ({ sampleRecord with
        content := "c", embedding := [(2:ℚ)], updated_at := "T1",
        metadata := updateMetadata "c" } : StoredRecord).chunk_index
      = sampleRecord.chunk_index :=
  (((updateEmbedding_frame [sampleRecord] "id1" "c" none [(2:ℚ)] "T1"
      [{ sampleRecord with
          content := "c", embedding := [(2:ℚ)], updated_at := "T1",
          metadata := updateMetadata "c" }] rfl).2 0 sampleRecord
      ({ sampleRecord with
          content := "c", embedding := [(2:ℚ)], updated_at := "T1",
          metadata := updateMetadata "c" }) rfl rfl).2 rfl).2.1

/-- C3 (amended): the persistent variant's brute-force similarity search
returns at most topK entries, sorted by the real value of the score in
descending order; the result is the topK-prefix of the stable descending
sort of the candidate entries, and the stable sort keeps every
equal-score group of candidates in its original insertion order: any
equal-score subsequence (List.Sublist) of the candidate list is still a
subsequence of the sorted list.  The in-memory variant's findSimilar
still returns at most topK entries (final conjunct), but its output is
not in general sorted by score: its unguarded cosine can produce NaN
scores, under which the JS comparator is inconsistent, and the sorted
order breaks down on such stores. -/
theorem fallbackSimilaritySearch_ranked :
    ∀ (q : Vec) (topK : ℕ) (source : Option String) (store : List StoreRow) (fetchErr : Bool),
      (fallbackSimilaritySearch q topK source store fetchErr).length ≤ topK
      ∧ (fallbackSimilaritySearch q topK source store fetchErr).Pairwise
          (fun a b => Score.val b.score ≤ Score.val a.score)
      ∧ (fetchErr = false →
          fallbackSimilaritySearch q topK source store fetchErr
            = (rankDesc ((fetchRows store source).map (simEntry q))).take topK)
      ∧ (∀ c : List SimEntry,
          c.Pairwise (fun a b => Score.val a.score = Score.val b.score) →
          List.Sublist c ((fetchRows store source).map (simEntry q)) →
          List.Sublist c (rankDesc ((fetchRows store source).map (simEntry q))))
      ∧ (∀ (embedQ : Option Vec) (k : ℕ) (st : MemState),
          (findSimilarMem embedQ k st).length ≤ k) := by
  intro q topK source store fetchErr
  have hmemlen : ∀ (embedQ : Option Vec) (k : ℕ) (st : MemState),
      (findSimilarMem embedQ k st).length ≤ k := by
    intro embedQ k st
    cases embedQ with
    | none => exact Nat.zero_le k
    | some q2 =>
      simp only [findSimilarMem]
      by_cases h : st.embeddings.length < st.chunks.length
      · rw [if_pos h]
        exact Nat.zero_le k
      · rw [if_neg h, List.length_take]
        exact Nat.min_le_left _ _
  have hsorted : (rankDesc ((fetchRows store source).map (simEntry q))).Pairwise
      (fun a b => scoreDescLe a b = true) :=
    List.sorted_mergeSort scoreDescLe_trans scoreDescLe_total _
  have hsorted_val : (rankDesc ((fetchRows store source).map (simEntry q))).Pairwise
      (fun a b => Score.val b.score ≤ Score.val a.score) :=
    hsorted.imp (fun h => (Score.le_iff_val _ _).mp h)
  have hstab : ∀ c : List SimEntry,
      c.Pairwise (fun a b => Score.val a.score = Score.val b.score) →
      List.Sublist c ((fetchRows store source).map (simEntry q)) →
      List.Sublist c (rankDesc ((fetchRows store source).map (simEntry q))) := by
    intro c hcp hcs
    exact List.sublist_mergeSort scoreDescLe_trans scoreDescLe_total
      (hcp.imp (fun h => (Score.le_iff_val _ _).mpr (le_of_eq h.symm))) hcs
  cases fetchErr with
  | true =>
    refine ⟨?_, ?_, ?_, hstab, hmemlen⟩
    · show (List.length ([] : List SimEntry)) ≤ topK
      exact Nat.zero_le topK
    · exact List.Pairwise.nil
    · intro h
      exact absurd h (by simp)
  | false =>
    have heq0 : fallbackSimilaritySearch q topK source store false
        = (rankDesc ((fetchRows store source).map (simEntry q))).take topK := rfl
    refine ⟨?_, ?_, fun _ => heq0, hstab, hmemlen⟩
    · rw [heq0, List.length_take]
      exact Nat.min_le_left _ _
    · rw [heq0]
      exact List.Pairwise.sublist (List.take_sublist _ _) hsorted_val

/-- A store row used by the C3 witness: two identical rows give two
candidate entries with equal scores. -/
def dupRow : StoreRow := { content := "a", embedding := [(1:ℚ)], metadata := [], source := "s" }

/-- C3 witness: the theorem applied to a store of two identical rows; the
two equal-score entries stay in insertion order inside the sorted list. -/
theorem fallbackSimilaritySearch_ranked_witness :
    List.Sublist [simEntry [(1:ℚ)] dupRow, simEntry [(1:ℚ)] dupRow]
      (rankDesc ((fetchRows [dupRow, dupRow] none).map (simEntry [(1:ℚ)]))) :=
  (fallbackSimilaritySearch_ranked [(1:ℚ)] 2 none [dupRow, dupRow] false).2.2.2.1
    [simEntry [(1:ℚ)] dupRow, simEntry [(1:ℚ)] dupRow]
    (List.pairwise_cons.mpr
      ⟨fun b hb => by rw [List.mem_singleton.mp hb], List.pairwise_singleton _ _⟩)
    (List.Sublist.refl _)

/-- C6: the brute-force fallback path applies no minimum-similarity floor:
its result length is exactly min topK (number of candidates matching the
source filter), and when the candidate count is at most topK every
matching candidate appears in the result regardless of its score (in
particular scores below 0.1).  By contrast the spec-modelled indexed path
(matchDocuments with its 0.1 floor) only ever returns entries with score
at least 0.1 and never returns an entry whose score is below 0.1. -/
theorem fallbackSimilaritySearch_no_floor :
    ∀ (q : Vec) (topK : ℕ) (source : Option String) (store : List StoreRow),
      (fallbackSimilaritySearch q topK source store false).length
        = min topK ((fetchRows store source).length)
      ∧ (∀ d ∈ fetchRows store source, (fetchRows store source).length ≤ topK →
          simEntry q d ∈ fallbackSimilaritySearch q topK source store false)
      ∧ (∀ e ∈ matchDocuments q (1/10) topK (fetchRows store source),
          Score.le (Score.ofRat (1/10)) e.score = true)
      ∧ (∀ e ∈ (fetchRows store source).map (simEntry q),
          Score.val e.score < (1:ℝ)/10 →
          e ∉ matchDocuments q (1/10) topK (fetchRows store source)) := by
  intro q topK source store
  have heq0 : fallbackSimilaritySearch q topK source store false
      = (rankDesc ((fetchRows store source).map (simEntry q))).take topK := rfl
  have hfloor : ∀ e ∈ matchDocuments q (1/10) topK (fetchRows store source),
      Score.le (Score.ofRat (1/10)) e.score = true := by
    intro e he
    unfold matchDocuments at he
    have he2 := List.take_subset _ _ he
    unfold rankDesc at he2
    rw [List.mem_mergeSort] at he2
    exact (List.mem_filter.mp he2).2
  refine ⟨?_, ?_, hfloor, ?_⟩
  · rw [heq0]
    unfold rankDesc
    rw [List.length_take, List.length_mergeSort, List.length_map]
  · intro d hd hlen
    have hlen2 : (rankDesc ((fetchRows store source).map (simEntry q))).length ≤ topK := by
      unfold rankDesc
      rw [List.length_mergeSort, List.length_map]
      exact hlen
    rw [heq0, List.take_of_length_le hlen2]
    unfold rankDesc
    rw [List.mem_mergeSort]
    exact List.mem_map_of_mem _ hd
  · intro e _ hval hin
    have hle := hfloor e hin
    rw [Score.le_iff_val, Score.val_ofRat] at hle
    have : ((1/10 : ℚ) : ℝ) = (1:ℝ)/10 := by norm_num
    rw [this] at hle
    linarith

/-- A store row whose cosine similarity against the query [1] is -1, far
below the 0.1 floor of the indexed path. -/
def negRow : StoreRow := { content := "neg", embedding := [(-1:ℚ)], metadata := [], source := "s" }

/-- C6 witness: the theorem applied to a one-row store whose only
candidate scores -1; the fallback result still contains it. -/
theorem fallbackSimilaritySearch_no_floor_witness :
    simEntry [(1:ℚ)] negRow ∈ fallbackSimilaritySearch [(1:ℚ)] 3 none [negRow] false :=
  ((fallbackSimilaritySearch_no_floor [(1:ℚ)] 3 none [negRow]).2.1) negRow
    (List.mem_cons_self _ _) (by decide)

/-- C1 counterexample: the in-memory loadCorpus (part_001 lines 18-31)
embeds the whole batch in one provider call, so item outcomes are not
independent, and on a provider failure it sets the embedding collection
to [] while leaving the freshly assigned chunk collection in place: the
chunk x, whose embedding generation failed, is still present in the
module-level store as a partial record (content without vector),
refuting the claim as stated for this loadCorpus variant. -/
theorem loadCorpusMem_partial_state_cex :
    (loadCorpusMem ["x"] (fun t => [t]) (fun _ => none)
      { chunks := [], embeddings := [] }).chunks = ["x"]
    ∧ (loadCorpusMem ["x"] (fun t => [t]) (fun _ => none)
      { chunks := [], embeddings := [] }).embeddings = [] := by
  exact ⟨rfl, rfl⟩

/-- Two Scores with equal numerator and equal denominator are equal (the
positivity field is a proposition). -/
theorem Score.ext2 {s t : Score} (hn : s.num = t.num) (hd : s.den2 = t.den2) : s = t := by
  cases s; cases t; simp_all

/-- A concrete in-memory store state for the C3 counterexample: four
chunks whose embeddings score -1, NaN, NaN and +1 against the query
vector [1] (the two all-zero embeddings hit the unguarded 0/0). -/
def memCexState : MemState :=
  { chunks := ["c0", "c1", "c2", "c3"],
    embeddings := [[(-1:ℚ)], [(0:ℚ)], [(0:ℚ)], [(1:ℚ)]] }

theorem memCex_score_neg : cosineSimilarityMem [(1:ℚ)] [(-1:ℚ)] = some ⟨-1, 1, one_pos⟩ := by
  unfold cosineSimilarityMem
  rw [if_neg (by norm_num), dif_neg (by norm_num [sumSq])]
  exact congrArg some (Score.ext2 (by norm_num [dotProduct, List.zip]) (by norm_num [sumSq]))

theorem memCex_score_nan : cosineSimilarityMem [(1:ℚ)] [(0:ℚ)] = none := by
  unfold cosineSimilarityMem
  rw [if_neg (by norm_num), dif_pos (by norm_num [sumSq])]

theorem memCex_score_pos : cosineSimilarityMem [(1:ℚ)] [(1:ℚ)] = some ⟨1, 1, one_pos⟩ := by
  unfold cosineSimilarityMem
  rw [if_neg (by norm_num), dif_neg (by norm_num [sumSq])]
  exact congrArg some (Score.ext2 (by norm_num [dotProduct, List.zip]) (by norm_num [sumSq]))

theorem memCex_entries :
    (memCexState.chunks.enum.map (fun p =>
      (⟨p.2, cosineSimilarityMem [(1:ℚ)] (memCexState.embeddings.getD p.1 [])⟩ : MemEntry)))
    = [⟨"c0", some ⟨-1, 1, one_pos⟩⟩, ⟨"c1", none⟩, ⟨"c2", none⟩,
        ⟨"c3", some ⟨1, 1, one_pos⟩⟩] := by
  show [(⟨"c0", cosineSimilarityMem [(1:ℚ)] [(-1:ℚ)]⟩ : MemEntry),
        ⟨"c1", cosineSimilarityMem [(1:ℚ)] [(0:ℚ)]⟩,
        ⟨"c2", cosineSimilarityMem [(1:ℚ)] [(0:ℚ)]⟩,
        ⟨"c3", cosineSimilarityMem [(1:ℚ)] [(1:ℚ)]⟩] = _
  rw [memCex_score_neg, memCex_score_nan, memCex_score_pos]

theorem memCex_sort :
    List.mergeSort
      [(⟨"c0", some ⟨-1, 1, one_pos⟩⟩ : MemEntry), ⟨"c1", none⟩, ⟨"c2", none⟩,
        ⟨"c3", some ⟨1, 1, one_pos⟩⟩] memDescLe
    = [(⟨"c0", some ⟨-1, 1, one_pos⟩⟩ : MemEntry), ⟨"c1", none⟩, ⟨"c2", none⟩,
        ⟨"c3", some ⟨1, 1, one_pos⟩⟩] := by
  simp [List.mergeSort, List.merge, memDescLe]

/-- C3 counterexample: on the in-memory variant the claim fails.  The JS
comparator b.score - a.score evaluates to NaN against a NaN score, which
sort treats as 0 (entries compare equal), so the stable sort modelling
Array.prototype.sort leaves this store's entries untouched: the returned
sequence carries score -1 (chunk c0) before score +1 (chunk c3), with the
two NaN scores (none) between them - not sorted by score in descending
order.  The final conjunct records the order violation: -1 is strictly
below +1 although the -1 entry is returned first. -/
theorem findSimilarMem_unsorted_cex :
    (findSimilarMem (some [(1:ℚ)]) 4 memCexState).map
        (fun e => (e.chunk, e.score.map Score.val))
      = [("c0", some (-1 : ℝ)), ("c1", none), ("c2", none), ("c3", some (1 : ℝ))]
    ∧ (-1 : ℝ) < 1 := by
  constructor
  · have hfs0 : findSimilarMem (some [(1:ℚ)]) 4 memCexState
        = List.take 4 ((memCexState.chunks.enum.map (fun p =>
            (⟨p.2, cosineSimilarityMem [(1:ℚ)] (memCexState.embeddings.getD p.1 [])⟩
              : MemEntry))).mergeSort memDescLe) := rfl
    rw [hfs0, memCex_entries, memCex_sort]
    simp [Score.val, Real.sqrt_one]
  · norm_num
